import Mathlib

/-!
Verification of the `literatureExportConverter` pipeline (`src/convert.py`).

The development shallowly embeds the program:

* Python `dict`s (string-keyed, insertion ordered, unique keys) are modelled
  as association lists `Dict := List (String × String)`, with `dlookup`,
  `dinsert` (overwrite-in-place or append), and `derase` (`dict.pop`)
  mirroring the Python operations.
* Python `str` operations used by the program (slicing by code point,
  `strip`, `split`, `replace`, `endswith`, `in`, `str.join`, `str(int)`)
  are modelled over the code-point list `String.data` by structural (or
  fuel-based, hence executable) recursion, so that concrete witnesses
  evaluate inside the kernel.
* Exceptions (`KeyError`, `ValueError`, `TypeError`) are modelled with
  `Except ConvErr`.

Each function of `convert.py` is translated under its source name.
-/

set_option autoImplicit false

universe u

/-- Python exceptions raised by the pipeline. -/
inductive ConvErr : Type where
  /-- a `KeyError` carrying the missing key (``"None"`` stands for the
  Python literal `None`) -/
  | keyError (k : String) : ConvErr
  /-- a `ValueError` with its message -/
  | valueError (msg : String) : ConvErr
  /-- the `TypeError` raised when `None` flows into a dict operation -/
  | typeError : ConvErr
deriving DecidableEq, Repr

/-- A Python `dict` with string keys and values: an insertion-ordered
association list.  All dicts built by the program have pairwise distinct
keys. -/
abbrev Dict := List (String × String)

/-- The semantic mapping for one dialect: canonical key ↦ (raw value ↦
canonical value), as loaded from `semantic_mapping.yaml`. -/
abbrev SemMap := List (String × List (String × String))

/-- The syntax mapping for one dialect: an ordered list of (single-entry)
mappings raw key ↦ canonical bib key, as loaded from
`syntax_mapping.yaml`. -/
abbrev SynMap := List (List (String × String))

/-- Python `d[k]` as an `Option`: the value at the first occurrence of key
`k`. -/
def dlookup {α : Type u} : List (String × α) → String → Option α
  | [], _ => none
  | p :: rest, k => if k = p.1 then some p.2 else dlookup rest k

/-- Python `k in d`. -/
def dcontains {α : Type u} (d : List (String × α)) (k : String) : Bool :=
  (dlookup d k).isSome

/-- Python `d[k] = v`: overwrite the (first occurrence of the) key in
place, else append the new pair at the end. -/
def dinsert {α : Type u} : List (String × α) → String → α → List (String × α)
  | [], k, v => [(k, v)]
  | p :: rest, k, v => if k = p.1 then (k, v) :: rest else p :: dinsert rest k v

/-- Python `d.pop(k, default)`: remove the (first occurrence of the) key. -/
def derase {α : Type u} : List (String × α) → String → List (String × α)
  | [], _ => []
  | p :: rest, k => if k = p.1 then rest else p :: derase rest k

/-- The key sequence of a dict. -/
def dkeys {α : Type u} (d : List (String × α)) : List String :=
  d.map Prod.fst

/-- Option alternative with explicit equations (used to state fold
results). -/
def oElse {α : Type u} : Option α → Option α → Option α
  | some a, _ => some a
  | none, b => b

/-! ### Python string operations, modelled over `String.data` -/

/-- Python `s[:n]` (slicing counts code points, as `String.data` does). -/
def pyTake (s : String) (n : Nat) : String :=
  String.mk (s.data.take n)

/-- Python `s[n:]`. -/
def pyDrop (s : String) (n : Nat) : String :=
  String.mk (s.data.drop n)

/-- Python `s[:-n]` (for `n ≤ len(s)`; drops the last `n` code points). -/
def pyDropRight (s : String) (n : Nat) : String :=
  String.mk (s.data.take (s.data.length - n))

/-- Python `s.strip()`: remove leading and trailing whitespace. -/
def pyStrip (s : String) : String :=
  String.mk (((s.data.dropWhile Char.isWhitespace).reverse.dropWhile Char.isWhitespace).reverse)

/-- Python `s.endswith(t)`. -/
def pyEndsWith (s t : String) : Bool :=
  t.data.isSuffixOf s.data

/-- Helper for `pySplit`: scan the remaining code points, cutting at each
occurrence of the separator.  The fuel is an upper bound on the number of
steps (each step consumes at least one code point of `rem`). -/
def pySplitAux (sep : List Char) : Nat → List Char → List Char → List (List Char)
  | 0, rem, acc => [acc ++ rem]
  | fuel + 1, rem, acc =>
    if !sep.isEmpty && sep.isPrefixOf rem then
      acc :: pySplitAux sep fuel (rem.drop sep.length) []
    else
      match rem with
      | [] => [acc]
      | c :: cs => pySplitAux sep fuel cs (acc ++ [c])

/-- Python `s.split(sep)` for a non-empty separator: split at each
left-to-right, non-overlapping occurrence of `sep`, keeping empty pieces. -/
def pySplit (s sep : String) : List String :=
  (pySplitAux sep.data (s.data.length + 1) s.data []).map String.mk

/-- Helper for `pyReplace`, with the same fuel discipline as
`pySplitAux`. -/
def pyReplaceAux (old new : List Char) : Nat → List Char → List Char
  | 0, rem => rem
  | fuel + 1, rem =>
    if !old.isEmpty && old.isPrefixOf rem then
      new ++ pyReplaceAux old new fuel (rem.drop old.length)
    else
      match rem with
      | [] => []
      | c :: cs => c :: pyReplaceAux old new fuel cs

/-- Python `s.replace(old, new)`: replace every left-to-right,
non-overlapping occurrence. -/
def pyReplace (s old new : String) : String :=
  String.mk (pyReplaceAux old.data new.data (s.data.length + 1) s.data)

/-- Python `sub in s` for the one-code-point needles used by the program
(the source only tests `"." in first_name`). -/
def pyContainsChar (s : String) (c : Char) : Bool :=
  s.data.contains c

/-- Python `sep.join(strs)`. -/
def pyJoin (sep : String) : List String → String
  | [] => ""
  | [x] => x
  | x :: xs => x ++ sep ++ pyJoin sep xs

/-- The decimal digit characters used by `pyNatRepr`. -/
def digitChar : Nat → Char
  | 0 => '0'
  | 1 => '1'
  | 2 => '2'
  | 3 => '3'
  | 4 => '4'
  | 5 => '5'
  | 6 => '6'
  | 7 => '7'
  | 8 => '8'
  | 9 => '9'
  | _ => '?'

/-- Numeric value of a decimal digit character (inverse of `digitChar`). -/
def digitVal : Char → Nat
  | '0' => 0
  | '1' => 1
  | '2' => 2
  | '3' => 3
  | '4' => 4
  | '5' => 5
  | '6' => 6
  | '7' => 7
  | '8' => 8
  | '9' => 9
  | _ => 0

/-- Decimal digits of `n`, most significant first; the fuel only needs to
exceed `n`. -/
def pyNatReprAux : Nat → Nat → List Char
  | 0, _ => []
  | fuel + 1, n =>
    if n < 10 then [digitChar n]
    else pyNatReprAux fuel (n / 10) ++ [digitChar (n % 10)]

/-- Python `str(n)` for a natural number: decimal notation, no sign, a
single `'0'` for zero. -/
def pyNatRepr (n : Nat) : String :=
  String.mk (pyNatReprAux (n + 1) n)

/-! ### The embedded program (`src/convert.py`) -/

/-- Loop body state of `RISFileReader.ris_to_dict`: `content` is the dict
built so far and `oldkey` the key of the previous non-continuation line
(`None` initially).  A continuation line (blank key) with `oldkey = None`
reproduces Python's `KeyError: None` from `content[oldkey]`. -/
def ris_to_dict_aux (content : Dict) (oldkey : Option String) : List String → Except ConvErr Dict
  | [] => .ok content
  | line :: rest =>
    let key := pyStrip (pyTake line 4)
    let value := pyStrip (pyDrop line 6)
    if key = "" then
      match oldkey with
      | none => .error (.keyError "None")
      | some ok =>
        match dlookup content ok with
        | none => .error (.keyError ok)
        | some old => ris_to_dict_aux (dinsert content ok (old ++ " " ++ value)) oldkey rest
    else
      match dlookup content key with
      | some old => ris_to_dict_aux (dinsert content key (old ++ "; " ++ value)) (some key) rest
      | none => ris_to_dict_aux (dinsert content key value) (some key) rest

/-- Model of `RISFileReader.ris_to_dict`: transform a list of RIS lines into a dict.
The first 4 characters of a line (stripped) are the key, the characters
from position 6 on (stripped) the value; a blank key continues the
previous field with a `" "` separator; a repeated key appends with
`"; "`. -/
def ris_to_dict (lines : List String) : Except ConvErr Dict :=
  ris_to_dict_aux [] none lines

/-- Result of one `RISFileReader.__next__` call on the remaining file
lines. -/
inductive RISStep : Type where
  /-- Python `StopIteration` -/
  | stop : RISStep
  /-- an exception escaping from `ris_to_dict` -/
  | err (e : ConvErr) : RISStep
  /-- a yielded record together with the lines remaining after it -/
  | record (d : Dict) (rest : List String) : RISStep
deriving DecidableEq, Repr

/-- Loop of `RISFileReader.__next__`: accumulate lines until a blank line
(then return the record built from the accumulated lines) or the end of
the file (then `StopIteration` if nothing was accumulated, else a final
record). -/
def risNextAux (acc : List String) : List String → RISStep
  | [] =>
    if acc.isEmpty then .stop
    else
      match ris_to_dict acc with
      | .ok d => .record d []
      | .error e => .err e
  | line :: rest =>
    if pyStrip line = "" then
      match ris_to_dict acc with
      | .ok d => .record d rest
      | .error e => .err e
    else risNextAux (acc ++ [line]) rest

/-- Model of `RISFileReader.__next__`, as a function of the lines not yet
consumed. -/
def risNext (fileLines : List String) : RISStep :=
  risNextAux [] fileLines

/-- The loop of `schema_map`: apply every rule `(key, bib_key)` of the
syntax mapping in table order, copying `row[key]` to `entry[bib_key]`
whenever `key` is present in `row` with a non-empty value. -/
def applySynRules (synMap : SynMap) (row : Dict) (entry : Dict) : Dict :=
  synMap.foldl
    (fun e m =>
      m.foldl
        (fun e r =>
          match dlookup row r.1 with
          | none => e
          | some v => if v = "" then e else dinsert e r.2 v)
        e)
    entry

/-- Model of `schema_map`: build the output entry, seeded with
the identifier `ID` (the dialect, an underscore and the decimal index), then
run the syntax-mapping rules.  The mapping
table (read from `syntax_mapping.yaml`, which is not part of the source
tree) is passed explicitly. -/
def schema_map (i : Nat) (row : Dict) (dialect : String) (synMap : SynMap) : Dict :=
  applySynRules synMap row [("ID", dialect ++ "_" ++ pyNatRepr i)]

/-- Model of `semantic_map`: for every key of the entry that appears in the
dialect's semantic map, replace the value by its image under the inner
map; a raw value without an image raises `KeyError` (Python
`semantic_map[key][value]`).  The mapping table is passed explicitly. -/
def semantic_map : Dict → SemMap → Except ConvErr Dict
  | [], _ => .ok []
  | kv :: rest, m =>
    match dlookup m kv.1 with
    | none =>
      match semantic_map rest m with
      | .error e => .error e
      | .ok r => .ok (kv :: r)
    | some inner =>
      match dlookup inner kv.2 with
      | none => .error (.keyError kv.2)
      | some cv =>
        match semantic_map rest m with
        | .error e => .error e
        | .ok r => .ok ((kv.1, cv) :: r)

/-- Model of `ieee_clean_entry`: canonicalize the author separator. -/
def ieee_clean_entry (entry : Dict) : Dict :=
  match dlookup entry "author" with
  | none => entry
  | some a => dinsert entry "author" (pyReplace a "; " " and ")

/-- Pairing loop of `scopus_author_canonicalize` (`while i < len - 1`):
consume two tokens `(last, first)` when the candidate first name contains
a period, else keep the last name alone and advance by one.  A final lone
token is never reached by the loop. -/
def pairUp : List String → List String
  | [] => []
  | [_] => []
  | last :: first :: rest =>
    if pyContainsChar first '.' then
      (pyStrip last ++ ", " ++ pyStrip first) :: pairUp rest
    else
      pyStrip last :: pairUp (first :: rest)

/-- Model of `scopus_author_canonicalize`: `None` for the literal
`"[No author name available]"`, else split on `","`, pair the tokens with
`pairUp` and join with `" and "`. -/
def scopus_author_canonicalize (authors : String) : Option String :=
  if authors = "[No author name available]" then none
  else some (pyJoin " and " (pairUp (pySplit authors ",")))

/-- Model of `scopus_clean_entry`: canonicalize the author field, dropping it when
the canonicalization returns `None`. -/
def scopus_clean_entry (entry : Dict) : Dict :=
  match dlookup entry "author" with
  | none => entry
  | some a =>
    match scopus_author_canonicalize a with
    | none => derase entry "author"
    | some a' => dinsert entry "author" a'

/-- Author block of `pubmed_clean_entry`: canonicalize the author
separator. -/
def pubmed_author_step (entry : Dict) : Dict :=
  match dlookup entry "author" with
  | none => entry
  | some a => dinsert entry "author" (pyReplace a "; " " and ")

/-- The `doi` loop of `pubmed_clean_entry`: `doi` starts as `None` and is
overwritten by the stripped remainder of every semicolon-separated token
whose stripped form ends in `"[doi]"`, so the last such token wins. -/
def pubmed_doi_extract (dv : String) : Option String :=
  (pySplit dv ";").foldl
    (fun acc t =>
      if pyEndsWith (pyStrip t) "[doi]" then some (pyStrip (pyDropRight (pyStrip t) 5))
      else acc)
    none

/-- DOI block of `pubmed_clean_entry`: keep the extracted DOI, or drop the
field when no token matched or the extracted DOI is the empty string
(Python `if doi:` is false for both `None` and `""`). -/
def pubmed_doi_step (entry : Dict) : Dict :=
  match dlookup entry "doi" with
  | none => entry
  | some dv =>
    match pubmed_doi_extract dv with
    | some s => if s = "" then derase entry "doi" else dinsert entry "doi" s
    | none => derase entry "doi"

/-- Year block of `pubmed_clean_entry`: truncate `year` to its first 4
characters. -/
def pubmed_year_step (entry : Dict) : Dict :=
  match dlookup entry "year" with
  | none => entry
  | some y => dinsert entry "year" (pyTake y 4)

/-- Model of `pubmed_clean_entry`: the three blocks in source order. -/
def pubmed_clean_entry (entry : Dict) : Dict :=
  pubmed_year_step (pubmed_doi_step (pubmed_author_step entry))

/-- The universal venue rule of `clean_entry`: an `article` drops
`booktitle`, anything else drops `journal`. -/
def venueDrop (et : String) (entry : Dict) : Dict :=
  if et = "article" then derase entry "booktitle" else derase entry "journal"

/-- Model of `clean_entry`: drop the superfluous venue field (`booktitle` for
articles, `journal` otherwise; `entry["ENTRYTYPE"]` raises `KeyError`
when absent), then dispatch to the dialect cleaner; an unknown dialect
raises `ValueError`. -/
def clean_entry (entry : Dict) (dialect : String) : Except ConvErr Dict :=
  match dlookup entry "ENTRYTYPE" with
  | none => .error (.keyError "ENTRYTYPE")
  | some et =>
    if dialect = "ieee" then .ok (ieee_clean_entry (venueDrop et entry))
    else if dialect = "scopus" then .ok (scopus_clean_entry (venueDrop et entry))
    else if dialect = "pubmed" then .ok (pubmed_clean_entry (venueDrop et entry))
    else .error (.valueError ("Unknown dialect: " ++ dialect))

/-- Model of `pubmed_preprocess`: keep a single recognized publication type from
the semicolon-separated `PT` field, defaulting to `"Journal Article"`.
Python intersects two `set`s and takes `list(found_pts)[0]`, whose choice
among several recognized types is unspecified; this model keeps the first
candidate in semantic-map order.  Claims proved below do not depend on
the chosen element. -/
def pubmed_preprocess (entry : Dict) (semMapPubmed : SemMap) : Except ConvErr Dict :=
  match dlookup semMapPubmed "ENTRYTYPE" with
  | none => .error (.keyError "ENTRYTYPE")
  | some inner =>
    match dlookup entry "PT" with
    | none => .error (.keyError "PT")
    | some pt =>
      let allPts := pySplit pt "; "
      let foundPts := (dkeys inner).filter (fun c => allPts.contains c)
      match foundPts with
      | [] => .ok (dinsert entry "PT" "Journal Article")
      | c :: _ => .ok (dinsert entry "PT" c)

/-- Model of `preprocess_entry`: identity for `ieee`/`scopus`, `pubmed_preprocess`
for `pubmed`; any other dialect falls through and Python returns `None`
(modelled as `Option.none`). -/
def preprocess_entry (entry : Dict) (dialect : String) (semMap : SemMap) : Option (Except ConvErr Dict) :=
  if dialect = "ieee" ∨ dialect = "scopus" then some (.ok entry)
  else if dialect = "pubmed" then some (pubmed_preprocess entry semMap)
  else none

/-- Loop of `transform` with the running `enumerate` index: preprocess,
syntax-map, semantic-map and clean each row, appending the cleaned entry
to the database.  A `None` from `preprocess_entry` flows into
`schema_map`, whose `key not in row` test raises `TypeError` in Python. -/
def transformAux (dialect : String) (synMap : SynMap) (semMap : SemMap) : Nat → List Dict → Except ConvErr (List Dict)
  | _, [] => .ok []
  | i, row :: rest =>
    match preprocess_entry row dialect semMap with
    | none => .error .typeError
    | some (.error e) => .error e
    | some (.ok pre) =>
      match semantic_map (schema_map i pre dialect synMap) semMap with
      | .error e => .error e
      | .ok entry₁ =>
        match clean_entry entry₁ dialect with
        | .error e => .error e
        | .ok entry₂ =>
          match transformAux dialect synMap semMap (i + 1) rest with
          | .error e => .error e
          | .ok tail => .ok (entry₂ :: tail)

/-- Model of `transform`: run the pipeline over all entries, producing the ordered
database (`BibDatabase.entries`). -/
def transform (dialect : String) (synMap : SynMap) (semMap : SemMap) (entries : List Dict) : Except ConvErr (List Dict) :=
  transformAux dialect synMap semMap 0 entries

/-! ### Dictionary lemmas -/

@[simp] theorem dkeys_nil {α : Type u} : dkeys ([] : List (String × α)) = [] := rfl

@[simp] theorem dkeys_cons {α : Type u} (p : String × α) (rest : List (String × α)) :
    dkeys (p :: rest) = p.1 :: dkeys rest := rfl

theorem dlookup_dinsert {α : Type u} (d : List (String × α)) (k k' : String) (v : α) :
    dlookup (dinsert d k v) k' = if k' = k then some v else dlookup d k' := by
  induction d with
  | nil =>
    by_cases h : k' = k <;> simp [dinsert, dlookup, h]
  | cons p rest ih =>
    by_cases hk : k = p.1
    · subst hk
      by_cases hk' : k' = p.1 <;> simp [dinsert, dlookup, hk']
    · by_cases hk' : k' = p.1
      · have h2 : ¬ k' = k := fun h => hk (h ▸ hk')
        have h3 : ¬ p.1 = k := fun h => hk h.symm
        simp [dinsert, dlookup, hk, hk', h2, h3]
      · simp [dinsert, dlookup, hk, hk', ih]

theorem dlookup_derase {α : Type u} (d : List (String × α)) (k k' : String) (h : k' ≠ k) :
    dlookup (derase d k) k' = dlookup d k' := by
  induction d with
  | nil => simp [derase]
  | cons p rest ih =>
    by_cases hk : k = p.1
    · have h2 : ¬ k' = p.1 := fun h2 => h (h2.trans hk.symm)
      simp [derase, dlookup, hk, h2]
    · simp [derase, dlookup, hk, ih]

theorem dlookup_eq_none_iff {α : Type u} (d : List (String × α)) (k : String) :
    dlookup d k = none ↔ k ∉ dkeys d := by
  induction d with
  | nil => simp [dlookup]
  | cons p rest ih =>
    by_cases hk : k = p.1
    · simp [dlookup, hk]
    · simp [dlookup, hk, ih]

theorem dlookup_derase_self {α : Type u} (d : List (String × α)) (k : String)
    (h : (dkeys d).Nodup) : dlookup (derase d k) k = none := by
  induction d with
  | nil => simp [derase, dlookup]
  | cons p rest ih =>
    rw [dkeys_cons, List.nodup_cons] at h
    by_cases hk : k = p.1
    · subst hk
      simp [derase, (dlookup_eq_none_iff rest p.1).mpr h.1]
    · simp [derase, dlookup, hk, ih h.2]

theorem dkeys_dinsert_mem {α : Type u} (d : List (String × α)) (k : String) (v : α)
    (h : k ∈ dkeys d) : dkeys (dinsert d k v) = dkeys d := by
  induction d with
  | nil => simp at h
  | cons p rest ih =>
    by_cases hk : k = p.1
    · simp [dinsert, hk]
    · have hrest : k ∈ dkeys rest := by
        rw [dkeys_cons] at h
        rcases List.mem_cons.mp h with h' | h'
        · exact absurd h' hk
        · exact h'
      simp [dinsert, hk, ih hrest]

theorem dkeys_dinsert_not_mem {α : Type u} (d : List (String × α)) (k : String) (v : α)
    (h : k ∉ dkeys d) : dkeys (dinsert d k v) = dkeys d ++ [k] := by
  induction d with
  | nil => simp [dinsert]
  | cons p rest ih =>
    rw [dkeys_cons] at h
    have hk : ¬ k = p.1 := fun hk => h (by simp [hk])
    have hrest : k ∉ dkeys rest := fun hm => h (by simp [hm])
    simp [dinsert, hk, ih hrest]

theorem mem_dkeys_dinsert_self {α : Type u} (d : List (String × α)) (k : String) (v : α) :
    k ∈ dkeys (dinsert d k v) := by
  by_cases h : k ∈ dkeys d
  · rw [dkeys_dinsert_mem d k v h]; exact h
  · rw [dkeys_dinsert_not_mem d k v h]; simp

theorem mem_dkeys_dinsert_of_mem {α : Type u} (d : List (String × α)) (k k' : String) (v : α)
    (h : k' ∈ dkeys d) : k' ∈ dkeys (dinsert d k v) := by
  by_cases hm : k ∈ dkeys d
  · rw [dkeys_dinsert_mem d k v hm]; exact h
  · rw [dkeys_dinsert_not_mem d k v hm]; simp [h]

theorem nodup_dkeys_dinsert {α : Type u} (d : List (String × α)) (k : String) (v : α)
    (h : (dkeys d).Nodup) : (dkeys (dinsert d k v)).Nodup := by
  by_cases hm : k ∈ dkeys d
  · rw [dkeys_dinsert_mem d k v hm]; exact h
  · rw [dkeys_dinsert_not_mem d k v hm]
    simpa [List.nodup_append] using ⟨h, hm⟩

theorem derase_sublist {α : Type u} (d : List (String × α)) (k : String) :
    (derase d k).Sublist d := by
  induction d with
  | nil => simp [derase]
  | cons p rest ih =>
    by_cases hk : k = p.1
    · rw [derase, if_pos hk]
      exact List.sublist_cons_self p rest
    · rw [derase, if_neg hk]
      exact List.Sublist.cons₂ p ih

theorem nodup_dkeys_derase {α : Type u} (d : List (String × α)) (k : String)
    (h : (dkeys d).Nodup) : (dkeys (derase d k)).Nodup :=
  ((derase_sublist d k).map Prod.fst).nodup h

/-! ### A pass of dictionary writes (the syntax-map rule pass) -/

/-- Apply a list of writes `(key, value)` to a dict, in order. -/
def dpass (ws : List (String × String)) (e : Dict) : Dict :=
  ws.foldl (fun d w => dinsert d w.1 w.2) e

/-- The last write for key `k` in a write list, if any. -/
def lastWrite (ws : List (String × String)) (k : String) : Option String :=
  (ws.reverse.find? (fun w => k == w.1)).map Prod.snd

@[simp] theorem dpass_nil (e : Dict) : dpass [] e = e := rfl

@[simp] theorem dpass_cons (w : String × String) (ws : List (String × String)) (e : Dict) :
    dpass (w :: ws) e = dpass ws (dinsert e w.1 w.2) := rfl

@[simp] theorem lastWrite_nil (k : String) : lastWrite [] k = none := rfl

theorem lastWrite_cons (w : String × String) (ws : List (String × String)) (k : String) :
    lastWrite (w :: ws) k = oElse (lastWrite ws k) (if k = w.1 then some w.2 else none) := by
  unfold lastWrite
  rw [List.reverse_cons, List.find?_append]
  cases hfind : List.find? (fun w => k == w.1) ws.reverse with
  | none =>
    by_cases hk : k = w.1
    · simp [Option.or, oElse, List.find?, hk]
    · have hb : (k == w.1) = false := beq_eq_false_iff_ne.mpr hk
      simp [Option.or, oElse, List.find?, hb, hk]
  | some p => simp [Option.or, oElse]

theorem dlookup_dpass (ws : List (String × String)) (e : Dict) (k : String) :
    dlookup (dpass ws e) k = oElse (lastWrite ws k) (dlookup e k) := by
  induction ws generalizing e with
  | nil => simp [oElse]
  | cons w ws ih =>
    rw [dpass_cons, ih, lastWrite_cons, dlookup_dinsert]
    cases lastWrite ws k with
    | some v => simp [oElse]
    | none =>
      by_cases hk : k = w.1 <;> simp [oElse, hk]

theorem dkeys_dpass_of_mem (ws : List (String × String)) (e : Dict)
    (h : ∀ w ∈ ws, w.1 ∈ dkeys e) : dkeys (dpass ws e) = dkeys e := by
  induction ws generalizing e with
  | nil => simp
  | cons w ws ih =>
    rw [dpass_cons, ih, dkeys_dinsert_mem]
    · exact h w (List.mem_cons_self w ws)
    · intro w' hw'
      exact mem_dkeys_dinsert_of_mem e w.1 w'.1 w.2 (h w' (List.mem_cons_of_mem w hw'))

theorem mem_dkeys_dpass_of_mem_dkeys (ws : List (String × String)) (e : Dict) (k : String)
    (h : k ∈ dkeys e) : k ∈ dkeys (dpass ws e) := by
  induction ws generalizing e with
  | nil => simpa using h
  | cons w ws ih =>
    rw [dpass_cons]
    exact ih (dinsert e w.1 w.2) (mem_dkeys_dinsert_of_mem e w.1 k w.2 h)

theorem mem_dkeys_dpass_of_mem (ws : List (String × String)) (e : Dict) (w : String × String)
    (h : w ∈ ws) : w.1 ∈ dkeys (dpass ws e) := by
  induction ws generalizing e with
  | nil => simp at h
  | cons w' ws ih =>
    rw [dpass_cons]
    rcases List.mem_cons.mp h with h' | h'
    · subst h'
      exact mem_dkeys_dpass_of_mem_dkeys ws (dinsert e w.1 w.2) w.1
        (mem_dkeys_dinsert_self e w.1 w.2)
    · exact ih (dinsert e w'.1 w'.2) h'

theorem nodup_dkeys_dpass (ws : List (String × String)) (e : Dict)
    (h : (dkeys e).Nodup) : (dkeys (dpass ws e)).Nodup := by
  induction ws generalizing e with
  | nil => simpa using h
  | cons w ws ih =>
    rw [dpass_cons]
    exact ih (dinsert e w.1 w.2) (nodup_dkeys_dinsert e w.1 w.2 h)

/-- Extensionality for dicts with duplicate-free keys: equal key sequences
and equal lookups force equality. -/
theorem dict_ext {α : Type u} (d d' : List (String × α))
    (hnd : (dkeys d).Nodup) (hkeys : dkeys d = dkeys d')
    (hget : ∀ k, dlookup d k = dlookup d' k) : d = d' := by
  induction d generalizing d' with
  | nil =>
    cases d' with
    | nil => rfl
    | cons p t => simp at hkeys
  | cons p t ih =>
    cases d' with
    | nil => simp at hkeys
    | cons p' t' =>
      rw [dkeys_cons, dkeys_cons] at hkeys
      have hk : p.1 = p'.1 := (List.cons.injEq _ _ _ _).mp hkeys |>.1
      have htkeys : dkeys t = dkeys t' := (List.cons.injEq _ _ _ _).mp hkeys |>.2
      have hv : p.2 = p'.2 := by
        have := hget p.1
        simp [dlookup, hk] at this
        exact this
      rw [dkeys_cons, List.nodup_cons] at hnd
      have htget : ∀ k, dlookup t k = dlookup t' k := by
        intro k
        by_cases hkp : k = p.1
        · have h1 : dlookup t k = none := by
            rw [dlookup_eq_none_iff, hkp]; exact hnd.1
          have h2 : dlookup t' k = none := by
            rw [dlookup_eq_none_iff, hkp, ← htkeys]; exact hnd.1
          rw [h1, h2]
        · have hkp' : ¬ k = p'.1 := hk ▸ hkp
          have := hget k
          simp [dlookup, hkp, hkp'] at this
          exact this
      have ht : t = t' := ih t' hnd.2 htkeys htget
      have hp : p = p' := by
        cases p; cases p'; simp_all
      rw [hp, ht]

/-- A pass of pure overwrites is idempotent. -/
theorem dpass_idem (ws : List (String × String)) (e : Dict)
    (h : (dkeys e).Nodup) : dpass ws (dpass ws e) = dpass ws e := by
  apply dict_ext
  · exact nodup_dkeys_dpass ws (dpass ws e) (nodup_dkeys_dpass ws e h)
  · exact dkeys_dpass_of_mem ws (dpass ws e) (fun w hw => mem_dkeys_dpass_of_mem ws e w hw)
  · intro k
    rw [dlookup_dpass, dlookup_dpass]
    cases lastWrite ws k <;> simp [oElse]

/-! ### Injectivity of the decimal representation -/

/-- Numeric value of a decimal digit string, most significant digit
first. -/
def digitsVal (l : List Char) : Nat :=
  l.foldl (fun a c => 10 * a + digitVal c) 0

theorem digitVal_digitChar (d : Nat) (h : d < 10) : digitVal (digitChar d) = d := by
  revert h
  revert d
  decide

theorem digitsVal_from (l : List Char) (a : Nat) :
    l.foldl (fun a c => 10 * a + digitVal c) a = digitsVal l + a * 10 ^ l.length := by
  induction l generalizing a with
  | nil => simp [digitsVal]
  | cons c cs ih =>
    simp only [List.foldl_cons, digitsVal, List.length_cons]
    rw [ih (10 * a + digitVal c), ih (10 * 0 + digitVal c)]
    ring

theorem digitsVal_append_digit (l : List Char) (c : Char) :
    digitsVal (l ++ [c]) = 10 * digitsVal l + digitVal c := by
  simp only [digitsVal, List.foldl_append, List.foldl_cons, List.foldl_nil]

theorem digitsVal_pyNatReprAux (fuel n : Nat) (h : n < fuel) :
    digitsVal (pyNatReprAux fuel n) = n := by
  induction fuel generalizing n with
  | zero => omega
  | succ fuel ih =>
    by_cases h10 : n < 10
    · simp only [pyNatReprAux, if_pos h10, digitsVal, List.foldl_cons, List.foldl_nil]
      simpa using digitVal_digitChar n h10
    · have hdivlt : n / 10 < n := Nat.div_lt_self (by omega) (by omega)
      have hfuel : n / 10 < fuel := by omega
      rw [pyNatReprAux, if_neg h10, digitsVal_append_digit, ih (n / 10) hfuel,
        digitVal_digitChar (n % 10) (Nat.mod_lt n (by omega))]
      omega

theorem pyNatRepr_inj (m n : Nat) (h : pyNatRepr m = pyNatRepr n) : m = n := by
  have hdata : pyNatReprAux (m + 1) m = pyNatReprAux (n + 1) n := congrArg String.data h
  have := congrArg digitsVal hdata
  rwa [digitsVal_pyNatReprAux (m + 1) m (by omega),
    digitsVal_pyNatReprAux (n + 1) n (by omega)] at this

theorem string_data_append (a b : String) : (a ++ b).data = a.data ++ b.data := by
  cases a; cases b; rfl

theorem string_eq_of_data (a b : String) (h : a.data = b.data) : a = b := by
  cases a; cases b; exact congrArg String.mk h

/-- Cancel a common prefix of identifier strings. -/
theorem id_string_inj (pre : String) (m n : Nat)
    (h : pre ++ pyNatRepr m = pre ++ pyNatRepr n) : m = n := by
  have hd := congrArg String.data h
  rw [string_data_append, string_data_append] at hd
  have : (pyNatRepr m).data = (pyNatRepr n).data := List.append_cancel_left hd
  exact pyNatRepr_inj m n (string_eq_of_data _ _ this)

/-! ### The syntax-map pass as a pass of writes -/

/-- The writes performed by one syntax-map rule pass over a given row:
each applicable rule (raw key present in the row with a non-empty value)
contributes the write `(bib_key, row[raw_key])`, in table order. -/
def synWrites (synMap : SynMap) (row : Dict) : List (String × String) :=
  synMap.flatten.filterMap
    (fun r =>
      match dlookup row r.1 with
      | none => none
      | some v => if v = "" then none else some (r.2, v))

theorem foldl_rules_eq_dpass (row : Dict) (l : List (String × String)) (e : Dict) :
    l.foldl
        (fun e r =>
          match dlookup row r.1 with
          | none => e
          | some v => if v = "" then e else dinsert e r.2 v)
        e =
      dpass
        (l.filterMap
          (fun r =>
            match dlookup row r.1 with
            | none => none
            | some v => if v = "" then none else some (r.2, v)))
        e := by
  induction l generalizing e with
  | nil => rfl
  | cons r l ih =>
    simp only [List.foldl_cons, List.filterMap_cons]
    cases hr : dlookup row r.1 with
    | none => simp [hr, ih]
    | some v =>
      by_cases hv : v = "" <;> simp [hr, hv, ih]

theorem applySynRules_eq_dpass (synMap : SynMap) (row : Dict) (e : Dict) :
    applySynRules synMap row e = dpass (synWrites synMap row) e := by
  unfold applySynRules synWrites
  rw [← List.foldl_flatten]
  exact foldl_rules_eq_dpass row synMap.flatten e

theorem lastWrite_eq_none (ws : List (String × String)) (k : String)
    (h : ∀ w ∈ ws, w.1 ≠ k) : lastWrite ws k = none := by
  unfold lastWrite
  rw [List.find?_eq_none.mpr]
  · rfl
  · intro w hw
    have : w.1 ≠ k := h w (List.mem_reverse.mp hw)
    simp [beq_eq_false_iff_ne, this, Ne.symm this]

theorem synWrites_key_ne (synMap : SynMap) (row : Dict) (k : String)
    (h : ∀ m ∈ synMap, ∀ r ∈ m, r.2 ≠ k) : ∀ w ∈ synWrites synMap row, w.1 ≠ k := by
  intro w hw
  rcases List.mem_filterMap.mp hw with ⟨r, hr, hfr⟩
  rcases List.mem_flatten.mp hr with ⟨m, hm, hrm⟩
  cases hrow : dlookup row r.1 with
  | none => rw [hrow] at hfr; exact absurd hfr (by simp)
  | some v =>
    rw [hrow] at hfr
    by_cases hv : v = ""
    · simp [hv] at hfr
    · simp [hv] at hfr
      rw [← hfr]
      exact h m hm r hrm

theorem dlookup_schema_map_ID (i : Nat) (row : Dict) (dialect : String) (synMap : SynMap)
    (h : ∀ m ∈ synMap, ∀ r ∈ m, r.2 ≠ "ID") :
    dlookup (schema_map i row dialect synMap) "ID" = some (dialect ++ "_" ++ pyNatRepr i) := by
  unfold schema_map
  rw [applySynRules_eq_dpass, dlookup_dpass,
    lastWrite_eq_none _ _ (synWrites_key_ne synMap row "ID" h)]
  simp [oElse, dlookup]

/-- C8: Applying the ordered syntax-map rule pass a second time, over the
same row, to the entry produced by `schema_map` yields the same entry:
the rules are pure overwrites whose values depend only on the row. -/
theorem synRulePass_idempotent (synMap : SynMap) (row : Dict) (i : Nat) (dialect : String) :
    applySynRules synMap row (schema_map i row dialect synMap) =
      schema_map i row dialect synMap := by
  unfold schema_map
  rw [applySynRules_eq_dpass, applySynRules_eq_dpass]
  exact dpass_idem (synWrites synMap row) _ (by simp)

/-! ### Field preservation by the dialect cleaners -/

theorem ieee_clean_dlookup (e : Dict) (k : String) (h : k ≠ "author") :
    dlookup (ieee_clean_entry e) k = dlookup e k := by
  unfold ieee_clean_entry
  cases ha : dlookup e "author" with
  | none => rfl
  | some a => rw [dlookup_dinsert, if_neg h]

theorem scopus_clean_dlookup (e : Dict) (k : String) (h : k ≠ "author") :
    dlookup (scopus_clean_entry e) k = dlookup e k := by
  unfold scopus_clean_entry
  split
  · rfl
  · split
    · exact dlookup_derase e "author" k h
    · rw [dlookup_dinsert, if_neg h]

theorem pubmed_author_step_dlookup (e : Dict) (k : String) (h : k ≠ "author") :
    dlookup (pubmed_author_step e) k = dlookup e k := by
  unfold pubmed_author_step
  cases ha : dlookup e "author" with
  | none => rfl
  | some a => rw [dlookup_dinsert, if_neg h]

theorem pubmed_doi_step_dlookup (e : Dict) (k : String) (h : k ≠ "doi") :
    dlookup (pubmed_doi_step e) k = dlookup e k := by
  unfold pubmed_doi_step
  split
  · rfl
  · split
    · split
      · exact dlookup_derase e "doi" k h
      · rw [dlookup_dinsert, if_neg h]
    · exact dlookup_derase e "doi" k h

theorem pubmed_year_step_dlookup (e : Dict) (k : String) (h : k ≠ "year") :
    dlookup (pubmed_year_step e) k = dlookup e k := by
  unfold pubmed_year_step
  cases hy : dlookup e "year" with
  | none => rfl
  | some y => rw [dlookup_dinsert, if_neg h]

theorem pubmed_clean_dlookup (e : Dict) (k : String)
    (h1 : k ≠ "author") (h2 : k ≠ "doi") (h3 : k ≠ "year") :
    dlookup (pubmed_clean_entry e) k = dlookup e k := by
  unfold pubmed_clean_entry
  rw [pubmed_year_step_dlookup _ _ h3, pubmed_doi_step_dlookup _ _ h2,
    pubmed_author_step_dlookup _ _ h1]

theorem venueDrop_dlookup (et : String) (e : Dict) (k : String)
    (h1 : k ≠ "booktitle") (h2 : k ≠ "journal") :
    dlookup (venueDrop et e) k = dlookup e k := by
  unfold venueDrop
  by_cases het : et = "article"
  · rw [if_pos het]; exact dlookup_derase e "booktitle" k h1
  · rw [if_neg het]; exact dlookup_derase e "journal" k h2

/-- Case analysis of a successful `clean_entry`. -/
theorem clean_entry_ok_cases (entry : Dict) (dialect : String) (r : Dict)
    (h : clean_entry entry dialect = .ok r) :
    ∃ et, dlookup entry "ENTRYTYPE" = some et ∧
      ((dialect = "ieee" ∧ r = ieee_clean_entry (venueDrop et entry)) ∨
        (dialect = "scopus" ∧ r = scopus_clean_entry (venueDrop et entry)) ∨
        (dialect = "pubmed" ∧ r = pubmed_clean_entry (venueDrop et entry))) := by
  unfold clean_entry at h
  split at h
  · cases h
  · rename_i et het
    refine ⟨et, het, ?_⟩
    split at h
    · rename_i h1
      injection h with hr
      exact Or.inl ⟨h1, hr.symm⟩
    · split at h
      · rename_i h2
        injection h with hr
        exact Or.inr (Or.inl ⟨h2, hr.symm⟩)
      · split at h
        · rename_i h3
          injection h with hr
          exact Or.inr (Or.inr ⟨h3, hr.symm⟩)
        · cases h

/-- A successful `clean_entry` leaves every field other than the venue
fields and the author/doi/year fields unchanged. -/
theorem clean_entry_dlookup (entry : Dict) (dialect : String) (r : Dict) (k : String)
    (h : clean_entry entry dialect = .ok r)
    (h1 : k ≠ "booktitle") (h2 : k ≠ "journal") (h3 : k ≠ "author")
    (h4 : k ≠ "doi") (h5 : k ≠ "year") :
    dlookup r k = dlookup entry k := by
  rcases clean_entry_ok_cases entry dialect r h with ⟨et, _, hcase⟩
  rcases hcase with ⟨_, hr⟩ | ⟨_, hr⟩ | ⟨_, hr⟩
  · rw [hr, ieee_clean_dlookup _ _ h3, venueDrop_dlookup _ _ _ h1 h2]
  · rw [hr, scopus_clean_dlookup _ _ h3, venueDrop_dlookup _ _ _ h1 h2]
  · rw [hr, pubmed_clean_dlookup _ _ h3 h4 h5, venueDrop_dlookup _ _ _ h1 h2]

/-! ### Semantic-map lemmas -/

/-- The per-field rewriting of `semantic_map`, stated from the spec: a key
present in the semantic map has its value replaced by the image under the
inner map, all other fields stay unchanged.  (The `getD` default is never
used when every value has an image.) -/
def semImage (m : SemMap) (kv : String × String) : String × String :=
  match dlookup m kv.1 with
  | none => kv
  | some inner => (kv.1, (dlookup inner kv.2).getD kv.2)

theorem semantic_map_ok_of_total (entry : Dict) (m : SemMap)
    (h : ∀ kv ∈ entry, ∀ inner, dlookup m kv.1 = some inner → (dlookup inner kv.2).isSome) :
    semantic_map entry m = .ok (entry.map (semImage m)) := by
  induction entry with
  | nil => rfl
  | cons kv rest ih =>
    have hrest := ih (fun kv' h' inner hi => h kv' (List.mem_cons_of_mem kv h') inner hi)
    cases hh : dlookup m kv.1 with
    | none =>
      simp [semantic_map, hh, hrest, semImage]
    | some inner =>
      have hsome := h kv (List.mem_cons_self kv rest) inner hh
      cases hh2 : dlookup inner kv.2 with
      | none => rw [hh2] at hsome; simp at hsome
      | some cv =>
        simp [semantic_map, hh, hh2, hrest, semImage]

theorem semantic_map_error_of_miss (entry : Dict) (m : SemMap)
    (h : ∃ kv ∈ entry, ∃ inner, dlookup m kv.1 = some inner ∧ dlookup inner kv.2 = none) :
    ∃ v, semantic_map entry m = .error (.keyError v) := by
  induction entry with
  | nil => simp at h
  | cons kv rest ih =>
    rcases h with ⟨kv', hkv', inner', hinner', hmiss'⟩
    rcases List.mem_cons.mp hkv' with hh | hh
    · subst hh
      exact ⟨kv'.2, by simp [semantic_map, hinner', hmiss']⟩
    · obtain ⟨v, hv⟩ := ih ⟨kv', hh, inner', hinner', hmiss'⟩
      cases h1 : dlookup m kv.1 with
      | none => exact ⟨v, by simp [semantic_map, h1, hv]⟩
      | some inner =>
        cases h2 : dlookup inner kv.2 with
        | none => exact ⟨kv.2, by simp [semantic_map, h1, h2]⟩
        | some cv => exact ⟨v, by simp [semantic_map, h1, h2, hv]⟩

theorem semantic_map_dlookup_not_mapped (entry : Dict) (m : SemMap) (r : Dict) (k : String)
    (hok : semantic_map entry m = .ok r) (hnm : dlookup m k = none) :
    dlookup r k = dlookup entry k := by
  induction entry generalizing r with
  | nil =>
    injection hok with hr
    rw [← hr]
  | cons kv rest ih =>
    unfold semantic_map at hok
    split at hok
    · rename_i hh
      split at hok
      · cases hok
      · rename_i r' hr'
        injection hok with hr
        rw [← hr, dlookup, dlookup]
        by_cases hk : k = kv.1
        · simp [hk]
        · simp [hk, ih r' hr']
    · rename_i inner hh
      split at hok
      · cases hok
      · rename_i cv hcv
        split at hok
        · cases hok
        · rename_i r' hr'
          injection hok with hr
          have hk : ¬ k = kv.1 := by
            intro hk
            rw [hk, hh] at hnm
            cases hnm
          rw [← hr, dlookup, dlookup]
          simp only [if_neg hk]
          exact ih r' hr'

/-! ### The transform pipeline -/

theorem transformAux_spec (dialect : String) (synMap : SynMap) (semMap : SemMap)
    (hsyn : ∀ m ∈ synMap, ∀ r ∈ m, r.2 ≠ "ID")
    (hsem : dlookup semMap "ID" = none) :
    ∀ (entries : List Dict) (i₀ : Nat) (out : List Dict),
      transformAux dialect synMap semMap i₀ entries = .ok out →
      out.length = entries.length ∧
      ∀ j (hj : j < out.length),
        dlookup (out.get ⟨j, hj⟩) "ID" = some (dialect ++ "_" ++ pyNatRepr (i₀ + j)) := by
  intro entries
  induction entries with
  | nil =>
    intro i₀ out h
    injection h with hr
    rw [← hr]
    exact ⟨rfl, fun j hj => absurd hj (by simp at hj ⊢)⟩
  | cons row rest ih =>
    intro i₀ out h
    unfold transformAux at h
    split at h
    · cases h
    · cases h
    · rename_i pre hpre
      split at h
      · cases h
      · rename_i e₁ hsm
        split at h
        · cases h
        · rename_i e₂ hce
          split at h
          · cases h
          · rename_i tail htail
            injection h with hr
            subst hr
            obtain ⟨hlen, hids⟩ := ih (i₀ + 1) tail htail
            constructor
            · simp [hlen]
            · intro j hj
              cases j with
              | zero =>
                have hID : dlookup e₂ "ID" = some (dialect ++ "_" ++ pyNatRepr i₀) := by
                  rw [clean_entry_dlookup e₁ dialect e₂ "ID" hce (by decide) (by decide)
                      (by decide) (by decide) (by decide),
                    semantic_map_dlookup_not_mapped _ semMap e₁ "ID" hsm hsem,
                    dlookup_schema_map_ID i₀ pre dialect synMap hsyn]
                simpa using hID
              | succ j =>
                have hj' : j < tail.length := by
                  simp at hj
                  omega
                have harith : i₀ + 1 + j = i₀ + (j + 1) := by omega
                have := hids j hj'
                rw [harith] at this
                simpa using this

/-- C1: For every dialect and mapping tables in which no syntax rule
targets the `ID` key and the semantic map has no `ID` entry, a successful
`transform` produces exactly one output entry per input record, in input
order, the `i`-th entry carrying as `ID` the dialect, an underscore and the
decimal index `i`; these
identifiers are pairwise distinct (no gaps, no duplicates). -/
theorem transform_ids (dialect : String) (synMap : SynMap) (semMap : SemMap)
    (entries out : List Dict)
    (hsyn : ∀ m ∈ synMap, ∀ r ∈ m, r.2 ≠ "ID")
    (hsem : dlookup semMap "ID" = none)
    (h : transform dialect synMap semMap entries = .ok out) :
    out.length = entries.length ∧
    (∀ i (hi : i < out.length),
        dlookup (out.get ⟨i, hi⟩) "ID" = some (dialect ++ "_" ++ pyNatRepr i)) ∧
    (∀ i j (hi : i < out.length) (hj : j < out.length),
        dlookup (out.get ⟨i, hi⟩) "ID" = dlookup (out.get ⟨j, hj⟩) "ID" → i = j) := by
  obtain ⟨hlen, hids⟩ := transformAux_spec dialect synMap semMap hsyn hsem entries 0 out h
  have hids' : ∀ i (hi : i < out.length),
      dlookup (out.get ⟨i, hi⟩) "ID" = some (dialect ++ "_" ++ pyNatRepr i) := by
    intro i hi
    have := hids i hi
    simpa using this
  refine ⟨hlen, hids', ?_⟩
  intro i j hi hj heq
  rw [hids' i hi, hids' j hj] at heq
  exact id_string_inj (dialect ++ "_") i j (Option.some.inj heq)

/-- Witness for C1 at a concrete run. -/
theorem transform_ids_witness :
    ∃ out : List Dict,
      transform "ieee" [[("T", "title")], [("ET", "ENTRYTYPE")]] []
          [[("T", "My title"), ("ET", "article")]] = .ok out ∧
      out.length = 1 := by
  refine ⟨[[("ID", "ieee_0"), ("title", "My title"), ("ENTRYTYPE", "article")]], rfl, ?_⟩
  have := transform_ids "ieee" [[("T", "title")], [("ET", "ENTRYTYPE")]] []
    [[("T", "My title"), ("ET", "article")]]
    [[("ID", "ieee_0"), ("title", "My title"), ("ENTRYTYPE", "article")]]
    (by decide) rfl rfl
  exact this.1

/-- C4: `semantic_map` is strict: a raw value without an image under the
inner map of a mapped key raises a `KeyError` that propagates (no default
is substituted), and when every mapped value has an image each such value
is replaced by its image while all other fields stay unchanged. -/
theorem semantic_map_strict (entry : Dict) (m : SemMap) :
    ((∃ kv ∈ entry, ∃ inner, dlookup m kv.1 = some inner ∧ dlookup inner kv.2 = none) →
      ∃ v, semantic_map entry m = .error (.keyError v)) ∧
    ((∀ kv ∈ entry, ∀ inner, dlookup m kv.1 = some inner → (dlookup inner kv.2).isSome) →
      semantic_map entry m = .ok (entry.map (semImage m))) :=
  ⟨semantic_map_error_of_miss entry m, semantic_map_ok_of_total entry m⟩

/-- Witness for C4: a lookup miss raises, a total map rewrites exactly the
mapped field. -/
theorem semantic_map_strict_witness :
    (∃ v, semantic_map [("ENTRYTYPE", "Conference")]
        [("ENTRYTYPE", [("Journal Article", "article")])] = .error (.keyError v)) ∧
    semantic_map [("ENTRYTYPE", "Journal Article"), ("title", "T")]
        [("ENTRYTYPE", [("Journal Article", "article")])] =
      .ok [("ENTRYTYPE", "article"), ("title", "T")] := by
  constructor
  · exact (semantic_map_strict [("ENTRYTYPE", "Conference")]
      [("ENTRYTYPE", [("Journal Article", "article")])]).1
      ⟨("ENTRYTYPE", "Conference"), by decide, [("Journal Article", "article")], rfl, rfl⟩
  · exact (semantic_map_strict [("ENTRYTYPE", "Journal Article"), ("title", "T")]
      [("ENTRYTYPE", [("Journal Article", "article")])]).2 (by decide)

/-- C6: A successful `clean_entry` never returns a `booktitle` field for
an `article` entry, nor a `journal` field for a non-article entry; no
dialect cleaner reintroduces either field. -/
theorem clean_entry_venue_rule (entry : Dict) (dialect : String) (r : Dict)
    (hnd : (dkeys entry).Nodup) (h : clean_entry entry dialect = .ok r) :
    (dlookup entry "ENTRYTYPE" = some "article" → dcontains r "booktitle" = false) ∧
    (dlookup entry "ENTRYTYPE" ≠ some "article" → dcontains r "journal" = false) := by
  rcases clean_entry_ok_cases entry dialect r h with ⟨et, het, hcase⟩
  constructor
  · intro hart
    have hetA : et = "article" := by
      rw [het] at hart
      exact Option.some.inj hart
    have hvd : dlookup (venueDrop et entry) "booktitle" = none := by
      unfold venueDrop
      rw [if_pos hetA]
      exact dlookup_derase_self entry "booktitle" hnd
    have hnone : dlookup r "booktitle" = none := by
      rcases hcase with ⟨_, hr⟩ | ⟨_, hr⟩ | ⟨_, hr⟩
      · rw [hr, ieee_clean_dlookup _ _ (by decide), hvd]
      · rw [hr, scopus_clean_dlookup _ _ (by decide), hvd]
      · rw [hr, pubmed_clean_dlookup _ _ (by decide) (by decide) (by decide), hvd]
    simp [dcontains, hnone]
  · intro hnart
    have hetN : ¬ et = "article" := fun he => hnart (by rw [het, he])
    have hvd : dlookup (venueDrop et entry) "journal" = none := by
      unfold venueDrop
      rw [if_neg hetN]
      exact dlookup_derase_self entry "journal" hnd
    have hnone : dlookup r "journal" = none := by
      rcases hcase with ⟨_, hr⟩ | ⟨_, hr⟩ | ⟨_, hr⟩
      · rw [hr, ieee_clean_dlookup _ _ (by decide), hvd]
      · rw [hr, scopus_clean_dlookup _ _ (by decide), hvd]
      · rw [hr, pubmed_clean_dlookup _ _ (by decide) (by decide) (by decide), hvd]
    simp [dcontains, hnone]

/-- Witness for C6 on a concrete article entry. -/
theorem clean_entry_venue_rule_witness :
    dcontains [("ENTRYTYPE", "article"), ("journal", "J")] "booktitle" = false :=
  (clean_entry_venue_rule [("ENTRYTYPE", "article"), ("booktitle", "B"), ("journal", "J")]
    "ieee" [("ENTRYTYPE", "article"), ("journal", "J")] (by decide) rfl).1 rfl

/-- C9: `clean_entry` on an entry without `ENTRYTYPE` raises `KeyError`
for any dialect (valid or not) — the lookup precedes the dialect switch —
so the pipeline succeeds only when earlier stages provided the field. -/
theorem clean_entry_requires_entrytype (entry : Dict) (dialect : String)
    (h : dcontains entry "ENTRYTYPE" = false) :
    clean_entry entry dialect = .error (.keyError "ENTRYTYPE") := by
  have hnone : dlookup entry "ENTRYTYPE" = none := by
    unfold dcontains at h
    cases hl : dlookup entry "ENTRYTYPE" with
    | none => rfl
    | some et => rw [hl] at h; cases h
  unfold clean_entry
  rw [hnone]

/-- Witness for C9: the `KeyError` fires even for an unknown dialect. -/
theorem clean_entry_requires_entrytype_witness :
    clean_entry [("journal", "J")] "nodialect" = .error (.keyError "ENTRYTYPE") :=
  clean_entry_requires_entrytype [("journal", "J")] "nodialect" rfl

/-! ### The RIS reader -/

/-- Spec-side decoding of one RIS line: the trimmed first 4 characters
form the key, the trimmed characters from position 6 onward the value. -/
def risDecodeSpec (line : String) : String × String :=
  (pyStrip (pyTake line 4), pyStrip (pyDrop line 6))

/-- Spec-side processing of decoded `(key, value)` pairs: an empty key
continues the previous field with a `" "` separator, a repeated key
appends with `"; "`, a fresh key starts a field. -/
def risProcessSpecAux (content : Dict) (oldkey : Option String) : List (String × String) → Except ConvErr Dict
  | [] => .ok content
  | (k, v) :: rest =>
    if k = "" then
      match oldkey with
      | none => .error (.keyError "None")
      | some okk =>
        match dlookup content okk with
        | none => .error (.keyError okk)
        | some old => risProcessSpecAux (dinsert content okk (old ++ " " ++ v)) oldkey rest
    else
      match dlookup content k with
      | some old => risProcessSpecAux (dinsert content k (old ++ "; " ++ v)) (some k) rest
      | none => risProcessSpecAux (dinsert content k v) (some k) rest

/-- Spec-side RIS record parsing: decode every line, then process the
pairs. -/
def risProcessSpec (pairs : List (String × String)) : Except ConvErr Dict :=
  risProcessSpecAux [] none pairs

theorem ris_to_dict_aux_eq_spec (lines : List String) :
    ∀ (content : Dict) (oldkey : Option String),
      ris_to_dict_aux content oldkey lines =
        risProcessSpecAux content oldkey (lines.map risDecodeSpec) := by
  induction lines with
  | nil => intro c okk; rfl
  | cons line rest ih =>
    intro c okk
    rw [List.map_cons]
    unfold ris_to_dict_aux risProcessSpecAux
    dsimp only [risDecodeSpec]
    by_cases hk : pyStrip (pyTake line 4) = ""
    · rw [if_pos hk, if_pos hk]
      cases okk with
      | none => rfl
      | some k0 =>
        dsimp only
        cases h0 : dlookup c k0 with
        | none => rfl
        | some old => exact ih _ _
    · rw [if_neg hk, if_neg hk]
      cases h0 : dlookup c (pyStrip (pyTake line 4)) with
      | some old => exact ih _ _
      | none => exact ih _ _

/-- C5: `ris_to_dict` decodes each line into the trimmed first-4-character
key and the trimmed from-position-6 value, then processes the pairs with
the continuation (single-space) and repeated-key (`"; "`) rules; in
particular the given two-line record produces `AU = "Smith, J. continued"`. -/
theorem ris_to_dict_decodes (lines : List String) :
    ris_to_dict lines = risProcessSpec (lines.map risDecodeSpec) ∧
    ris_to_dict ["AU  - Smith, J.", "      continued"] =
      .ok [("AU", "Smith, J. continued")] :=
  ⟨ris_to_dict_aux_eq_spec lines [] none, rfl⟩

theorem risNextAux_ne_stop (ls : List String) :
    ∀ acc : List String, acc ≠ [] → risNextAux acc ls ≠ .stop := by
  induction ls with
  | nil =>
    intro acc hacc
    cases acc with
    | nil => exact absurd rfl hacc
    | cons a as =>
      unfold risNextAux
      cases h2 : ris_to_dict (a :: as) with
      | ok d => simp [h2]
      | error e => simp [h2]
  | cons l ls ih =>
    intro acc hacc
    unfold risNextAux
    by_cases hl : pyStrip l = ""
    · rw [if_pos hl]
      cases h2 : ris_to_dict acc with
      | ok d => simp [h2]
      | error e => simp [h2]
    · rw [if_neg hl]
      exact ih (acc ++ [l]) (by simp)

/-- C2 (amended): iteration signals end-of-sequence exactly when the
remaining input is empty; a blank line reached with zero accumulated
lines yields an empty record (zero fields) rather than end-of-sequence. -/
theorem risNext_stop_iff (fileLines : List String) :
    (risNext fileLines = .stop ↔ fileLines = []) ∧
    (∀ l rest, fileLines = l :: rest → pyStrip l = "" →
      risNext fileLines = .record [] rest) := by
  constructor
  · constructor
    · intro h
      cases fileLines with
      | nil => rfl
      | cons l rest =>
        unfold risNext risNextAux at h
        by_cases hl : pyStrip l = ""
        · rw [if_pos hl] at h
          simp [ris_to_dict, ris_to_dict_aux] at h
        · rw [if_neg hl] at h
          exact absurd h (risNextAux_ne_stop rest [l] (by simp))
    · intro h
      rw [h]
      rfl
  · intro l rest hfl hl
    rw [hfl]
    unfold risNext risNextAux
    rw [if_pos hl]
    rfl

/-- C2 counterexample: a record boundary reached with zero accumulated
lines (a leading blank line) yields an empty record, not
end-of-sequence. -/
theorem risNext_blank_counterexample :
    risNext [""] = .record [] [] ∧ risNext [""] ≠ .stop := by
  exact ⟨rfl, by decide⟩

/-- Witness for C2: end of input stops, a mid-stream blank with nothing
accumulated yields the empty record. -/
theorem risNext_stop_iff_witness :
    risNext [] = .stop ∧ risNext ["", "x"] = .record [] ["x"] :=
  ⟨(risNext_stop_iff []).1.mpr rfl, (risNext_stop_iff ["", "x"]).2 "" ["x"] rfl rfl⟩

theorem ris_to_dict_aux_ok (lines : List String) :
    ∀ (content : Dict) (k₀ : String), (dlookup content k₀).isSome = true →
      ∃ d, ris_to_dict_aux content (some k₀) lines = .ok d := by
  induction lines with
  | nil => intro c k₀ h; exact ⟨c, rfl⟩
  | cons line rest ih =>
    intro c k₀ h
    unfold ris_to_dict_aux
    by_cases hk : pyStrip (pyTake line 4) = ""
    · rw [if_pos hk]
      dsimp only
      cases hl : dlookup c k₀ with
      | none => rw [hl] at h; cases h
      | some old =>
        exact ih (dinsert c k₀ (old ++ " " ++ pyStrip (pyDrop line 6))) k₀
          (by rw [dlookup_dinsert]; simp)
    · rw [if_neg hk]
      cases hl : dlookup c (pyStrip (pyTake line 4)) with
      | none =>
        exact ih (dinsert c (pyStrip (pyTake line 4)) (pyStrip (pyDrop line 6)))
          (pyStrip (pyTake line 4)) (by rw [dlookup_dinsert]; simp)
      | some old =>
        exact ih (dinsert c (pyStrip (pyTake line 4)) (old ++ "; " ++ pyStrip (pyDrop line 6)))
          (pyStrip (pyTake line 4)) (by rw [dlookup_dinsert]; simp)

/-- C10: `ris_to_dict` raises `KeyError` on a record whose first line has
a blank key portion (the continuation branch reads `content[None]`), and
succeeds whenever the first line carries a non-empty key. -/
theorem ris_to_dict_first_line_key (line : String) (rest : List String) :
    (pyStrip (pyTake line 4) = "" →
      ris_to_dict (line :: rest) = .error (.keyError "None")) ∧
    (pyStrip (pyTake line 4) ≠ "" → ∃ d, ris_to_dict (line :: rest) = .ok d) := by
  constructor
  · intro hk
    unfold ris_to_dict ris_to_dict_aux
    rw [if_pos hk]
  · intro hk
    unfold ris_to_dict ris_to_dict_aux
    rw [if_neg hk]
    exact ris_to_dict_aux_ok rest
      (dinsert [] (pyStrip (pyTake line 4)) (pyStrip (pyDrop line 6)))
      (pyStrip (pyTake line 4)) (by rw [dlookup_dinsert]; simp)

/-- Witness for C10: a blank-key first line raises, a proper first line
succeeds. -/
theorem ris_to_dict_first_line_key_witness :
    ris_to_dict ["    - x"] = .error (.keyError "None") ∧
    ∃ d, ris_to_dict ["AU  - X"] = .ok d :=
  ⟨(ris_to_dict_first_line_key "    - x" []).1 rfl,
    (ris_to_dict_first_line_key "AU  - X" []).2 (by decide)⟩

/-! ### Scopus author canonicalization -/

/-- C3 counterexample: the pairing loop stops at the penultimate token
(`while i < len - 1`), so the trailing last-name-only token `" Doe"` is
dropped and the result is not `"Smith, J. and Doe"`. -/
theorem scopus_trailing_author_counterexample :
    scopus_author_canonicalize "Smith, J., Doe" ≠ some "Smith, J. and Doe" := by
  decide

/-- C3 (amended): on `"Smith, J., Doe"` the canonicalization returns
`"Smith, J."` — the trailing last-name-only token is dropped because the
pairing loop never reaches a final lone token. -/
theorem scopus_trailing_author_dropped :
    scopus_author_canonicalize "Smith, J., Doe" = some "Smith, J." := by
  decide

/-! ### Pubmed DOI extraction -/

theorem oElse_none {α : Type u} (x : Option α) : oElse x none = x := by
  cases x <;> rfl

theorem getLast?_cons_oElse {β : Type} (xs : List β) :
    ∀ b, (b :: xs).getLast? = oElse xs.getLast? (some b) := by
  induction xs with
  | nil => intro b; rfl
  | cons x xs ih =>
    intro b
    rw [List.getLast?_cons_cons, ih x]
    cases xs.getLast? <;> rfl

/-- The last token of `dv` (split on `";"`) whose stripped form ends in
`"[doi]"`, with that suffix stripped and the remainder stripped — the
spec's description of the DOI extraction. -/
def lastDoiToken (dv : String) : Option String :=
  ((pySplit dv ";").filterMap
    (fun t =>
      if pyEndsWith (pyStrip t) "[doi]" then some (pyStrip (pyDropRight (pyStrip t) 5))
      else none)).getLast?

theorem pubmed_doi_fold (l : List String) :
    ∀ init : Option String,
      l.foldl
          (fun acc t =>
            if pyEndsWith (pyStrip t) "[doi]" then some (pyStrip (pyDropRight (pyStrip t) 5))
            else acc)
          init =
        oElse
          ((l.filterMap
              (fun t =>
                if pyEndsWith (pyStrip t) "[doi]" then
                  some (pyStrip (pyDropRight (pyStrip t) 5))
                else none)).getLast?)
          init := by
  induction l with
  | nil => intro init; rfl
  | cons t l ih =>
    intro init
    rw [List.foldl_cons, List.filterMap_cons]
    cases hp : pyEndsWith (pyStrip t) "[doi]" with
    | false => simp [hp, ih]
    | true =>
      simp only [hp, if_pos]
      rw [ih, getLast?_cons_oElse]
      cases (l.filterMap
        (fun t =>
          if pyEndsWith (pyStrip t) "[doi]" then some (pyStrip (pyDropRight (pyStrip t) 5))
          else none)).getLast? <;> rfl

theorem pubmed_doi_extract_eq (dv : String) :
    pubmed_doi_extract dv = lastDoiToken dv := by
  unfold pubmed_doi_extract lastDoiToken
  rw [pubmed_doi_fold, oElse_none]

theorem nodup_dkeys_pubmed_author_step (e : Dict) (h : (dkeys e).Nodup) :
    (dkeys (pubmed_author_step e)).Nodup := by
  unfold pubmed_author_step
  split
  · exact h
  · exact nodup_dkeys_dinsert _ _ _ h

theorem pubmed_doi_step_eq (e : Dict) (dv : String) (h : dlookup e "doi" = some dv) :
    pubmed_doi_step e =
      match lastDoiToken dv with
      | some s => if s = "" then derase e "doi" else dinsert e "doi" s
      | none => derase e "doi" := by
  unfold pubmed_doi_step
  rw [h]
  dsimp only
  rw [pubmed_doi_extract_eq]

/-- C7 counterexample: for the doi value `"[doi]"` a token ending in
`"[doi]"` exists, yet its trimmed remainder is empty and Python's
`if doi:` is false, so the field is removed instead of being set to
`""`. -/
theorem pubmed_doi_empty_counterexample :
    pubmed_clean_entry [("doi", "[doi]")] = [] ∧
    dlookup (pubmed_clean_entry [("doi", "[doi]")]) "doi" = none :=
  ⟨rfl, rfl⟩

/-- C7 (amended): `pubmed_clean_entry` scans the semicolon-separated
`doi` value; the last token whose trimmed form ends in `"[doi]"`, with
the suffix stripped and the remainder trimmed, becomes the new `doi`
value — unless no token matches or that remainder is empty, in which case
the field is removed entirely. -/
theorem pubmed_doi_rule (entry : Dict) (dv : String)
    (hnd : (dkeys entry).Nodup) (hdv : dlookup entry "doi" = some dv) :
    (∀ s, lastDoiToken dv = some s → s ≠ "" →
      dlookup (pubmed_clean_entry entry) "doi" = some s) ∧
    ((lastDoiToken dv = none ∨ lastDoiToken dv = some "") →
      dcontains (pubmed_clean_entry entry) "doi" = false) := by
  have hA : dlookup (pubmed_author_step entry) "doi" = some dv := by
    rw [pubmed_author_step_dlookup entry "doi" (by decide)]
    exact hdv
  have hndA : (dkeys (pubmed_author_step entry)).Nodup :=
    nodup_dkeys_pubmed_author_step entry hnd
  constructor
  · intro s hs hne
    unfold pubmed_clean_entry
    rw [pubmed_year_step_dlookup _ _ (by decide), pubmed_doi_step_eq _ dv hA, hs]
    dsimp only
    rw [if_neg hne, dlookup_dinsert]
    simp
  · intro hcase
    unfold pubmed_clean_entry dcontains
    rw [pubmed_year_step_dlookup _ _ (by decide), pubmed_doi_step_eq _ dv hA]
    rcases hcase with hc | hc
    · rw [hc]
      dsimp only
      rw [dlookup_derase_self _ _ hndA]
      rfl
    · rw [hc]
      dsimp only
      rw [if_pos rfl, dlookup_derase_self _ _ hndA]
      rfl

/-- Witness for C7 at the spec's example value. -/
theorem pubmed_doi_rule_witness :
    dlookup (pubmed_clean_entry [("doi", "12345 [pmid]; 10.1000/xyz [doi]")]) "doi" =
      some "10.1000/xyz" :=
  (pubmed_doi_rule [("doi", "12345 [pmid]; 10.1000/xyz [doi]")]
    "12345 [pmid]; 10.1000/xyz [doi]" (by decide) rfl).1 "10.1000/xyz" (by decide) (by decide)
